import Mathlib

/-!
Verification development for the sports-card price analysis engine
(src/price_analyzer.py of the sportscardbot repository).

The Python code is shallowly embedded as follows:
* Python strings are lists of characters (Str); str.lower, the substring
  test (the Python in operator), str.split and str.strip are modelled on
  lists of characters.
* Python floats are modelled as exact numbers: quantities that stay in the
  rational fragment (listing prices, card values, match scores, discount
  percentages of the catalog and scraping paths) are rationals; quantities
  that pass through exp or sqrt (recency weights, weighted averages, the
  standard deviation) are reals.
* datetime values are modelled by Timestamp: the naive wall-clock reading
  encoded as a number of seconds, plus an optional timezone annotation.
  Python subtraction of naive datetimes subtracts the wall-clock readings,
  and timedelta.days is floor division by 86400 seconds.
* dictionaries with a fixed key set become structures; a missing or
  unparseable end_time is the none case of an Option, exactly as the
  upstream parser (ebay_client._parse_listing) stores None when
  datetime.fromisoformat raises.
* the external collaborators (API clients, the scraper) are passed as
  functions; exceptions raised by a collaborator are modelled with Except.
-/

/-- Python strings, modelled as lists of characters. -/
abbrev Str := List Char

/-- Python str.lower, character by character. -/
def toLowerStr (s : Str) : Str := s.map Char.toLower

/-- Python substring test: strContains hay needle is the Python
expression needle in hay. -/
def strContains (hay needle : Str) : Bool :=
  needle.isPrefixOf hay ||
    match hay with
    | [] => false
    | _ :: t => strContains t needle

/-- Python str.split with no argument: split on whitespace, dropping
empty pieces. -/
def wordsOf (s : Str) : List Str :=
  (s.splitOnP Char.isWhitespace).filter (· ≠ [])

/-- Python str.strip: drop leading and trailing whitespace. -/
def stripWs (s : Str) : Str :=
  ((s.dropWhile Char.isWhitespace).reverse.dropWhile Char.isWhitespace).reverse

/-- Model of a parsed datetime value: the naive wall-clock reading in
seconds together with the optional timezone annotation (tzinfo). The
analyzer strips the annotation with replace and subtracts wall-clock
readings, so only the wall field ever enters the arithmetic. -/
structure Timestamp where
  wall : ℤ
  tz : Option ℤ
deriving DecidableEq, Repr

/-- One sold-listing record as consumed by the estimator: the code reads
only the price and end_time keys of the dictionary. end_time is none when
the listing had no end time or its timestamp failed to parse upstream. -/
structure SoldListing where
  price : ℚ
  end_time : Option Timestamp
deriving DecidableEq, Repr

/-- The three constructor parameters of PriceAnalyzer. -/
structure AnalyzerConfig where
  discount_threshold : ℚ
  min_sold_samples : ℕ
  recency_weight : ℚ
deriving DecidableEq, Repr

/-- One active-listing record, with the dictionary keys that
find_opportunities reads. -/
structure ActiveListing where
  title : Str
  price : ℚ
  url : Str
  image_url : Str
  condition : Str
  seller_name : Str
  listing_type : Str
deriving DecidableEq, Repr

/-- The statistics dictionary returned by calculate_market_value. -/
structure MarketStats where
  market_value : ℝ
  average : ℚ
  median : ℚ
  std_dev : ℝ
  min : ℚ
  max : ℚ
  sample_size : ℕ
  weighted_average : Option ℝ

/-- One opportunity row as produced by find_opportunities. -/
structure Opportunity where
  title : Str
  active_price : ℚ
  market_value : ℝ
  avg_sold_price : ℚ
  median_sold_price : ℚ
  discount_pct : ℝ
  potential_profit : ℝ
  profit_margin : ℝ
  url : Str
  image_url : Str
  condition : Str
  seller : Str
  listing_type : Str
  sold_comps : ℕ
  price_std_dev : ℝ

/-- Python timedelta days of now minus the wall-clock reading:
floor division of the second difference by 86400. -/
def daysAgo (now : ℤ) (t : Timestamp) : ℤ := (now - t.wall).fdiv 86400

/-- Recency weight of one record: exp of minus recency_weight times
days_ago over 30, as computed in calculate_weighted_average. -/
noncomputable def weightOf (cfg : AnalyzerConfig) (now : ℤ) (t : Timestamp) : ℝ :=
  Real.exp (-(cfg.recency_weight : ℝ) * ((daysAgo now t : ℤ) : ℝ) / 30)

/-- The listings_with_dates selection of calculate_weighted_average: the
records that have an end_time and a strictly positive price, each reduced
to its price and timestamp, in input order. -/
def datedRecords (sold : List SoldListing) : List (ℚ × Timestamp) :=
  sold.filterMap fun l =>
    l.end_time.bind fun t => if 0 < l.price then some (l.price, t) else none

/-- Embedding of calculate_weighted_average: weights by recency over the
records with a date and a positive price, returning none when no such
record exists. The timezone annotation of an aware timestamp is stripped
by replace before subtracting, so the weight depends on the wall-clock
reading alone. -/
noncomputable def calculate_weighted_average (cfg : AnalyzerConfig) (now : ℤ)
    (sold : List SoldListing) : Option ℝ :=
  let withDates := datedRecords sold
  if withDates.isEmpty then none
  else
    let weights := withDates.map fun r => weightOf cfg now r.2
    let prices := withDates.map fun r => ((r.1 : ℚ) : ℝ)
    if weights.isEmpty then none
    else some ((List.zipWith (fun p w => p * w) prices weights).sum / weights.sum)

/-- Arithmetic mean of a list of rationals (np.mean on the price array). -/
def meanQ (l : List ℚ) : ℚ := l.sum / l.length

/-- Median as computed by np.median: middle element of the sorted array,
or the mean of the two middle elements for even length. -/
def medianQ (l : List ℚ) : ℚ :=
  let s := l.mergeSort fun a b => decide (a ≤ b)
  if l.length % 2 = 1 then s.getD (l.length / 2) 0
  else (s.getD (l.length / 2 - 1) 0 + s.getD (l.length / 2) 0) / 2

/-- Minimum of the price array (np.min; the list is nonempty whenever the
code evaluates it). -/
def minQ (l : List ℚ) : ℚ := (l.min?).getD 0

/-- Maximum of the price array (np.max). -/
def maxQ (l : List ℚ) : ℚ := (l.max?).getD 0

/-- Population standard deviation as computed by np.std. -/
noncomputable def stdR (l : List ℚ) : ℝ :=
  Real.sqrt ((l.map fun p => ((p : ℝ) - (meanQ l : ℚ)) ^ 2).sum / l.length)

/-- Embedding of calculate_market_value. The first guard is the Python
test (not sold_listings or len < min_sold_samples); the price list keeps
only strictly positive prices; the point estimate prefers the weighted
average whenever it is available and nonzero (Python truthiness of the
optional float). -/
noncomputable def calculate_market_value (cfg : AnalyzerConfig) (now : ℤ)
    (sold : List SoldListing) : Option MarketStats :=
  if sold.isEmpty || decide (sold.length < cfg.min_sold_samples) then none
  else
    let prices := (sold.filter fun l => decide (0 < l.price)).map (·.price)
    if prices.isEmpty then none
    else
      let weighted_avg := calculate_weighted_average cfg now sold
      let market_value : ℝ :=
        match weighted_avg with
        | none => ((meanQ prices : ℚ) : ℝ)
        | some w => if w = 0 then ((meanQ prices : ℚ) : ℝ) else w
      some
        { market_value := market_value
          average := meanQ prices
          median := medianQ prices
          std_dev := stdR prices
          min := minQ prices
          max := maxQ prices
          sample_size := prices.length
          weighted_average := weighted_avg }

/-- Descending comparison on discount_pct used to embed the final
sort_values call of find_opportunities. -/
noncomputable def oppDesc (a b : Opportunity) : Bool :=
  decide (b.discount_pct ≤ a.discount_pct)

/-- Embedding of find_opportunities: estimate the market value, admit the
active listings whose discount meets the threshold, and sort the result
by discount percentage descending. -/
noncomputable def find_opportunities (cfg : AnalyzerConfig) (now : ℤ)
    (active : List ActiveListing) (sold : List SoldListing) : List Opportunity :=
  match calculate_market_value cfg now sold with
  | none => []
  | some stats =>
    let mv := stats.market_value
    let opps := active.filterMap fun l =>
      if l.price ≤ 0 then none
      else
        let discount := (mv - (l.price : ℚ)) / mv * 100
        if (cfg.discount_threshold : ℚ) ≤ discount then
          some
            { title := l.title
              active_price := l.price
              market_value := mv
              avg_sold_price := stats.average
              median_sold_price := stats.median
              discount_pct := discount
              potential_profit := mv - (l.price : ℚ)
              profit_margin := (mv - (l.price : ℚ)) / ((l.price : ℚ) : ℝ) * 100
              url := l.url
              image_url := l.image_url
              condition := l.condition
              seller := l.seller_name
              listing_type := l.listing_type
              sold_comps := stats.sample_size
              price_std_dev := stats.std_dev }
        else none
    if opps.isEmpty then [] else opps.mergeSort oppDesc

/-- One catalog card as produced by SportsCardProClient, with every key
that the analyzer reads (the client fills every key, so defaults of the
dictionary get calls are dead). -/
structure Card where
  card_id : Str
  title : Str
  player : Str
  sport : Str
  year : Str
  set : Str
  card_number : Str
  grade : Str
  grading_company : Str
  price : ℚ
  market_value : ℚ
  image_url : Str
deriving DecidableEq, Repr

/-- The market-value dictionary returned by the get_market_value call of
the catalog client, restricted to the keys the analyzer reads. -/
structure ScpStats where
  average : ℚ
  median : ℚ
  sample_size : ℕ
  std_dev : ℚ
deriving DecidableEq, Repr

/-- One opportunity row of the catalog path (analyze_sportscardpro). -/
structure ScpOpportunity where
  title : Str
  active_price : ℚ
  market_value : ℚ
  avg_sold_price : ℚ
  median_sold_price : ℚ
  discount_pct : ℚ
  potential_profit : ℚ
  profit_margin : ℚ
  url : Str
  image_url : Str
  condition : Str
  seller : Str
  listing_type : Str
  sold_comps : ℕ
  price_std_dev : ℚ
  player : Str
  sport : Str
  year : Str
  set : Str
  card_number : Str
deriving DecidableEq, Repr

/-- The optional search filters of the configuration dictionary that
analyze_sportscardpro appends to the query; an empty string stands for a
missing or falsy entry, matching Python truthiness of str. -/
structure ScpSearchConfig where
  player : Str
  year : Str
  set : Str
  sport : Str
deriving DecidableEq, Repr

/-- Query building of analyze_sportscardpro: the stripped keyword when
nonempty, then the truthy configuration filters, joined by single
spaces. -/
def build_scp_query (keyword : Str) (sc : ScpSearchConfig) : Str :=
  let parts :=
    (if stripWs keyword ≠ [] then [stripWs keyword] else []) ++
    (if sc.player ≠ [] then [sc.player] else []) ++
    (if sc.year ≠ [] then [sc.year] else []) ++
    (if sc.set ≠ [] then [sc.set] else []) ++
    (if sc.sport ≠ [] then [sc.sport] else [])
  List.intercalate [' '] parts

/-- Descending comparison on discount_pct for the catalog path sort. -/
def scpDesc (a b : ScpOpportunity) : Bool :=
  decide (b.discount_pct ≤ a.discount_pct)

/-- Embedding of analyze_sportscardpro. The client is passed as two
functions: search_cards (whose internal catch-all returns an empty list
instead of raising) and get_market_value (which returns none on any
failure). Cards whose market value or price is nonpositive are skipped;
admitted cards must meet the discount threshold; the result is sorted by
discount percentage descending. -/
def analyze_sportscardpro (keyword : Str) (sc : ScpSearchConfig)
    (search_cards : Str → List Card) (get_market_value : Str → Option ScpStats)
    (cfg : AnalyzerConfig) : List ScpOpportunity :=
  let query := build_scp_query keyword sc
  if query.isEmpty then []
  else
    let cards := search_cards query
    if cards.isEmpty then []
    else
      let opps := cards.filterMap fun card =>
        let mv := card.market_value
        let current := card.price
        if mv ≤ 0 ∨ current ≤ 0 then none
        else
          let discount := (mv - current) / mv * 100
          if cfg.discount_threshold ≤ discount then
            let stats := if card.card_id ≠ [] then get_market_value card.card_id else none
            some
              { title := card.title
                active_price := current
                market_value := mv
                avg_sold_price := match stats with | some s => s.average | none => mv
                median_sold_price := match stats with | some s => s.median | none => mv
                discount_pct := discount
                potential_profit := mv - current
                profit_margin := (mv - current) / current * 100
                url := if card.card_id ≠ [] then
                    "https://www.sportscardspro.com/card/".toList ++ card.card_id
                  else []
                image_url := card.image_url
                condition :=
                  let c := stripWs (card.grading_company ++ [' '] ++ card.grade)
                  if c = [] then "Raw".toList else c
                seller := "Sports Card Pro".toList
                listing_type := "Market Data".toList
                sold_comps := match stats with | some s => s.sample_size | none => 0
                price_std_dev := match stats with | some s => s.std_dev | none => 0
                player := card.player
                sport := card.sport
                year := card.year
                set := card.set
                card_number := card.card_number }
          else none
      if opps.isEmpty then [] else opps.mergeSort scpDesc

/-- One scraped active listing, with the dictionary keys the arbitrage
analysis reads. The scraper fills total_cost with price plus shipping,
but the analyzer treats it as an independent input field. -/
structure ScrapedListing where
  title : Str
  price : ℚ
  shipping_cost : ℚ
  total_cost : ℚ
  url : Str
  image_url : Str
  condition : Str
deriving DecidableEq, Repr

/-- One opportunity entry of the scraping path (analyze_with_scraping). -/
structure ScrapeOpportunity where
  listing : ScrapedListing
  market_data : Card
  market_value : ℚ
  listing_price : ℚ
  discount_pct : ℚ
  potential_profit : ℚ
  match_score : ℚ
  query : Str
deriving DecidableEq, Repr

/-- The exclusion vocabulary of is_non_sports_card. -/
def nonCardKeywords : List Str :=
  ["funko".toList, "pop".toList, "vinyl".toList, "figure".toList,
   "magic the gathering".toList, "mtg".toList, "magic card".toList,
   "pokemon".toList, "yugioh".toList, "yu-gi-oh".toList,
   "video game".toList, "xbox".toList, "playstation".toList,
   "nintendo".toList, "switch".toList,
   "comic book".toList, "graphic novel".toList, "paperback".toList,
   "jersey".toList, "autograph photo".toList, "signed photo".toList,
   "bobblehead".toList, "plush".toList, "toy".toList]

/-- Embedding of is_non_sports_card: the lowercased title contains one of
the excluded keywords. -/
def is_non_sports_card (title : Str) : Bool :=
  nonCardKeywords.any fun kw => strContains title kw

/-- The fixed vocabulary of card-specific bonus terms used by
calculate_match_score. -/
def cardTerms : List Str :=
  ["card".toList, "rookie".toList, "rc".toList, "prizm".toList,
   "chrome".toList, "topps".toList, "panini".toList, "fleer".toList,
   "psa".toList, "bgs".toList]

/-- Embedding of calculate_match_score: additive score over lowercased
strings with a bonus capped at one fifth, the total capped at one. The
Python float constants 0.5, 0.3, 0.2 and 0.05 are the exact rationals
below. -/
def calculate_match_score (listing : ScrapedListing) (card : Card) : ℚ :=
  let lt := toLowerStr listing.title
  let player := toLowerStr card.player
  let cset := toLowerStr card.set
  let year := toLowerStr card.year
  let s1 : ℚ := if player ≠ [] ∧ strContains lt player then 1/2 else 0
  let s2 : ℚ := if cset ≠ [] ∧ (wordsOf cset).any (fun w => strContains lt w) then 3/10 else 0
  let s3 : ℚ := if year ≠ [] ∧ strContains lt year then 1/5 else 0
  let s4 : ℚ := min (((cardTerms.filter fun t => strContains lt t).length : ℚ) * (1/20)) (1/5)
  min (s1 + s2 + s3 + s4) 1

/-- The best-match loop of analyze_with_scraping: the running pair of
best match and best score, replaced only on a strictly greater score. -/
def best_match_aux (listing : ScrapedListing) :
    List Card → Option Card × ℚ → Option Card × ℚ
  | [], acc => acc
  | c :: rest, acc =>
      best_match_aux listing rest
        (if acc.2 < calculate_match_score listing c then (some c, calculate_match_score listing c) else acc)

/-- The best-match loop started from no match and score zero. -/
def best_match_fold (listing : ScrapedListing) (cards : List Card) : Option Card × ℚ :=
  best_match_aux listing cards (none, 0)

/-- Descending comparison on discount_pct for the scraping path sort. -/
def scrapeDesc (a b : ScrapeOpportunity) : Bool :=
  decide (b.discount_pct ≤ a.discount_pct)

/-- Embedding of analyze_with_scraping. The two collaborators are passed
as functions from the query to the fetched lists. A listing is skipped
when its title marks a non-sports item, when no candidate card scores
above the 0.3 match threshold, when the matched market value or the
listing total cost is exactly zero, or when the discount misses the
threshold; the admitted entries are sorted by discount descending. -/
def analyze_with_scraping (search_cards : Str → List Card)
    (search_listings : Str → List ScrapedListing)
    (cfg : AnalyzerConfig) (query : Str) : List ScrapeOpportunity :=
  let scp_cards := search_cards query
  if scp_cards.isEmpty then []
  else
    let ebay_listings := search_listings query
    if ebay_listings.isEmpty then []
    else
      let opps := ebay_listings.filterMap fun listing =>
        let lt := toLowerStr listing.title
        if is_non_sports_card lt then none
        else
          let bm := best_match_fold listing scp_cards
          bm.1.bind fun best =>
            if 3/10 < bm.2 then
              let mv := best.market_value
              if mv = 0 then none
              else
                let listing_price := listing.total_cost
                if listing_price = 0 then none
                else
                  let discount := (mv - listing_price) / mv * 100
                  if cfg.discount_threshold ≤ discount then
                    some
                      { listing := listing
                        market_data := best
                        market_value := mv
                        listing_price := listing_price
                        discount_pct := discount
                        potential_profit := mv - listing_price
                        match_score := bm.2
                        query := query }
                  else none
            else none
      opps.mergeSort scrapeDesc

/-- One iteration of the analyze_by_keyword loop: a raised exception is
caught and leaves the accumulated mapping unchanged, an empty result is
not added, a nonempty result is appended under its keyword. -/
def keywordStep {α ε : Type} (f : Str → Except ε (List α))
    (acc : List (Str × List α)) (k : Str) : List (Str × List α) :=
  match f k with
  | Except.error _ => acc
  | Except.ok opps => if opps.isEmpty then acc else acc ++ [(k, opps)]

/-- Embedding of analyze_by_keyword. The per-keyword body (the client
fetches plus the per-keyword analysis, for either kind of client) is
passed as a function that either raises (the error case, caught and
logged by the loop) or returns the per-keyword result list; keywords with
an empty result are not added to the mapping. -/
def analyze_by_keyword {α ε : Type} (f : Str → Except ε (List α))
    (keywords : List Str) : List (Str × List α) :=
  keywords.foldl (keywordStep f) []

/-- Timezone stripping as performed by replace with tzinfo None: the
wall-clock reading is kept, the annotation is dropped. -/
def stripTz (l : SoldListing) : SoldListing :=
  { l with end_time := l.end_time.map fun t => { wall := t.wall, tz := none } }

/-- Concrete catalog card with a negative market value, as produced when
the upstream price feed reports a negative value. -/
def negCard : Card :=
  { card_id := []
    title := []
    player := "smith".toList
    sport := []
    year := []
    set := []
    card_number := []
    grade := []
    grading_company := []
    price := 0
    market_value := -10
    image_url := [] }

/-- Concrete scraped listing whose title matches negCard. -/
def smithListing : ScrapedListing :=
  { title := "smith".toList
    price := 5
    shipping_cost := 0
    total_cost := 5
    url := []
    image_url := []
    condition := [] }

/-- First of two catalog cards with equal match scores. -/
def cardA : Card :=
  { card_id := "a".toList
    title := []
    player := "smith".toList
    sport := []
    year := []
    set := []
    card_number := []
    grade := []
    grading_company := []
    price := 10
    market_value := 50
    image_url := [] }

/-- Second catalog card, identical to cardA for scoring purposes but
distinguishable by its identifier. -/
def cardB : Card :=
  { cardA with card_id := "b".toList }

/-- Concrete per-keyword body used to exercise analyze_by_keyword: one
keyword succeeds with a result, one raises, one returns an empty result. -/
def keywordBody : Str → Except Unit (List ℕ)
  | ['a'] => Except.ok [1]
  | ['b'] => Except.error ()
  | ['d'] => Except.ok []
  | _ => Except.ok [2]

/-- Every record selected into the weighted average has a strictly
positive price. -/
theorem datedRecords_price_pos {sold : List SoldListing} :
    ∀ r ∈ datedRecords sold, 0 < r.1 := by
  intro r hr
  rcases List.mem_filterMap.mp hr with ⟨l, _, hl⟩
  rcases h : l.end_time with _ | t
  · rw [h] at hl
    exact absurd hl (by simp)
  · rw [h, Option.some_bind] at hl
    by_cases hp : 0 < l.price
    · rw [if_pos hp] at hl
      cases hl
      exact hp
    · rw [if_neg hp] at hl
      exact absurd hl (by simp)

/-- Closed form of the weighted average when at least one record carries
a date and a positive price. -/
theorem calculate_weighted_average_eq (cfg : AnalyzerConfig) (now : ℤ)
    (sold : List SoldListing) (h : datedRecords sold ≠ []) :
    calculate_weighted_average cfg now sold =
      some (((datedRecords sold).map fun r => ((r.1 : ℚ) : ℝ) * weightOf cfg now r.2).sum /
            ((datedRecords sold).map fun r => weightOf cfg now r.2).sum) := by
  unfold calculate_weighted_average
  rw [if_neg (by simpa using h), if_neg (by simpa using h)]
  congr 1
  congr 1
  simp [List.zipWith_map_left, List.zipWith_map_right, List.zipWith_same]

/-- The weighted average is none exactly when no record has both a date
and a positive price. -/
theorem calculate_weighted_average_eq_none_iff (cfg : AnalyzerConfig) (now : ℤ)
    (sold : List SoldListing) :
    calculate_weighted_average cfg now sold = none ↔ datedRecords sold = [] := by
  constructor
  · intro h
    by_contra hne
    rw [calculate_weighted_average_eq cfg now sold hne] at h
    exact absurd h (by simp)
  · intro h
    unfold calculate_weighted_average
    rw [if_pos (by simpa using h)]

/-- The sum of the recency weights over a nonempty selection is strictly
positive. -/
theorem weights_sum_pos (cfg : AnalyzerConfig) (now : ℤ)
    {L : List (ℚ × Timestamp)} (h : L ≠ []) :
    0 < ((L.map fun r => weightOf cfg now r.2).sum) := by
  refine List.sum_pos _ ?_ (by simpa using h)
  intro x hx
  rcases List.mem_map.mp hx with ⟨r, _, rfl⟩
  exact Real.exp_pos _

/-- Any value returned by the weighted average is strictly positive. -/
theorem calculate_weighted_average_pos {cfg : AnalyzerConfig} {now : ℤ}
    {sold : List SoldListing} {w : ℝ}
    (h : calculate_weighted_average cfg now sold = some w) : 0 < w := by
  by_cases hne : datedRecords sold = []
  · rw [(calculate_weighted_average_eq_none_iff cfg now sold).mpr hne] at h
    exact absurd h (by simp)
  · rw [calculate_weighted_average_eq cfg now sold hne] at h
    have hw : w = ((datedRecords sold).map fun r => ((r.1 : ℚ) : ℝ) * weightOf cfg now r.2).sum /
        ((datedRecords sold).map fun r => weightOf cfg now r.2).sum := by
      exact (Option.some.inj h).symm
    rw [hw]
    refine div_pos ?_ (weights_sum_pos cfg now hne)
    refine List.sum_pos _ ?_ (by simpa using hne)
    intro x hx
    rcases List.mem_map.mp hx with ⟨r, hr, rfl⟩
    have hp : 0 < r.1 := datedRecords_price_pos r hr
    have : (0 : ℝ) < ((r.1 : ℚ) : ℝ) := by exact_mod_cast hp
    exact mul_pos this (Real.exp_pos _)

/-- The mean of a nonempty list of positive rationals is positive. -/
theorem meanQ_pos {l : List ℚ} (h : ∀ p ∈ l, 0 < p) (hne : l ≠ []) : 0 < meanQ l := by
  unfold meanQ
  refine div_pos (List.sum_pos _ h hne) ?_
  have : 0 < l.length := List.length_pos.mpr hne
  exact_mod_cast this

/-- The positive-price selection of calculate_market_value consists of
positive prices. -/
theorem pricesOf_pos {sold : List SoldListing} :
    ∀ p ∈ (sold.filter fun l => decide (0 < l.price)).map (·.price), 0 < p := by
  intro p hp
  rcases List.mem_map.mp hp with ⟨l, hl, rfl⟩
  have := List.of_mem_filter hl
  exact of_decide_eq_true this

/-- The point estimate of any returned market statistics is strictly
positive. -/
theorem calculate_market_value_pos {cfg : AnalyzerConfig} {now : ℤ}
    {sold : List SoldListing} {stats : MarketStats}
    (h : calculate_market_value cfg now sold = some stats) : 0 < stats.market_value := by
  simp only [calculate_market_value] at h
  split_ifs at h with h1 h2
  have hrec := Option.some.inj h
  have hne : ((sold.filter fun l => decide (0 < l.price)).map (·.price)) ≠ [] := by
    intro hcon
    rw [hcon] at h2
    exact h2 rfl
  have hmean : (0 : ℝ) <
      ((meanQ ((sold.filter fun l => decide (0 < l.price)).map (·.price)) : ℚ) : ℝ) := by
    exact_mod_cast meanQ_pos pricesOf_pos hne
  rw [← hrec]
  rcases hcwa : calculate_weighted_average cfg now sold with _ | w
  · simpa [hcwa] using hmean
  · have hwpos := calculate_weighted_average_pos hcwa
    by_cases hz : w = 0
    · simpa [hcwa, hz] using hmean
    · simpa [hcwa, hz] using hwpos

/-- The estimator declares insufficient data exactly when the total
record count is below the configured minimum or no record has a strictly
positive price; a C2 claim theorem. The usable-record count plays no role
in the first disjunct. -/
theorem c2_insufficient_data (cfg : AnalyzerConfig) (now : ℤ) (sold : List SoldListing) :
    calculate_market_value cfg now sold = none ↔
      (sold.length < cfg.min_sold_samples ∨
        (sold.filter fun l => decide (0 < l.price)) = []) := by
  constructor
  · intro h
    simp only [calculate_market_value] at h
    split_ifs at h with h1 h2
    · rcases Bool.or_eq_true _ _ |>.mp h1 with hemp | hlt
      · right
        have : sold = [] := by simpa using hemp
        rw [this]
        rfl
      · left
        exact of_decide_eq_true hlt
    · right
      have hmap : ((sold.filter fun l => decide (0 < l.price)).map (·.price)) = [] := by
        simpa using h2
      simpa using hmap
  · intro h
    simp only [calculate_market_value]
    rcases h with hlt | hfil
    · rw [if_pos (by simp [hlt])]
    · by_cases h1 : sold.isEmpty || decide (sold.length < cfg.min_sold_samples)
      · rw [if_pos h1]
      · rw [if_neg h1, if_pos (by simp [hfil])]

/-- Counterexample to the original C2 claim: five records of which only
two carry a positive price. The usable count 2 is below the minimum 5,
yet statistics are returned, because the admission test counts all
records. -/
theorem c2_counterexample :
    (calculate_market_value { discount_threshold := 20, min_sold_samples := 5, recency_weight := 7/10 } 0
        [{ price := 10, end_time := none }, { price := 10, end_time := none },
         { price := -1, end_time := none }, { price := -1, end_time := none },
         { price := -1, end_time := none }]).isSome = true ∧
    (([{ price := 10, end_time := none }, { price := 10, end_time := none },
       { price := -1, end_time := none }, { price := -1, end_time := none },
       { price := -1, end_time := none }] : List SoldListing).filter
        fun l => decide (0 < l.price)).length < 5 := by
  constructor
  · simp only [calculate_market_value]
    rw [if_neg (by norm_num), if_neg (by norm_num [List.filter])]
    rfl
  · norm_num [List.filter]

/-- The match score is the capped sum of the player, set-token, year and
vocabulary components and always lies between zero and one; the C5 claim
theorem. -/
theorem c5_match_score (listing : ScrapedListing) (card : Card) :
    calculate_match_score listing card =
      min ((if toLowerStr card.player ≠ [] ∧
              strContains (toLowerStr listing.title) (toLowerStr card.player) then 1/2 else 0) +
           (if toLowerStr card.set ≠ [] ∧
              (wordsOf (toLowerStr card.set)).any
                (fun w => strContains (toLowerStr listing.title) w) then 3/10 else 0) +
           (if toLowerStr card.year ≠ [] ∧
              strContains (toLowerStr listing.title) (toLowerStr card.year) then 1/5 else 0) +
           min (((cardTerms.filter fun t =>
              strContains (toLowerStr listing.title) t).length : ℚ) * (1/20)) (1/5)) 1 ∧
    0 ≤ calculate_match_score listing card ∧ calculate_match_score listing card ≤ 1 := by
  refine ⟨rfl, ?_, ?_⟩
  · simp only [calculate_match_score]
    refine le_min ?_ (by norm_num)
    have h4 : (0 : ℚ) ≤ min (((cardTerms.filter fun t =>
        strContains (toLowerStr listing.title) t).length : ℚ) * (1/20)) (1/5) :=
      le_min (by positivity) (by norm_num)
    split_ifs <;> linarith
  · simp only [calculate_match_score]
    exact min_le_right _ _

/-- Membership in the keyword fold comes either from the accumulator or
from a keyword whose body returned a nonempty result. -/
theorem mem_foldl_keywordStep {α ε : Type} (f : Str → Except ε (List α)) :
    ∀ (ks : List Str) (acc : List (Str × List α)) (k : Str) (opps : List α),
      (k, opps) ∈ ks.foldl (keywordStep f) acc →
      (k, opps) ∈ acc ∨ (f k = Except.ok opps ∧ opps ≠ []) := by
  intro ks
  induction ks with
  | nil =>
      intro acc k opps h
      exact Or.inl h
  | cons a t ih =>
      intro acc k opps h
      rw [List.foldl_cons] at h
      rcases ih _ k opps h with hmem | hP
      · rcases hfa : f a with e' | opps'
        · simp only [keywordStep, hfa] at hmem
          exact Or.inl hmem
        · simp only [keywordStep, hfa] at hmem
          by_cases hemp : opps'.isEmpty
          · rw [if_pos hemp] at hmem
            exact Or.inl hmem
          · rw [if_neg hemp] at hmem
            rcases List.mem_append.mp hmem with hl | hr
            · exact Or.inl hl
            · have hpair : k = a ∧ opps = opps' := by simpa using hr
              right
              rw [hpair.1, hpair.2]
              refine ⟨hfa, ?_⟩
              simpa using hemp
      · exact Or.inr hP

/-- Per-keyword isolation of analyze_by_keyword: a raising keyword and a
keyword with an empty result both disappear from the batch without
affecting the remaining keywords, and every entry of the mapping comes
from a successful, nonempty per-keyword result; the C6 claim theorem. -/
theorem c6_per_keyword_isolation {α ε : Type} (f : Str → Except ε (List α))
    (pre post : List Str) (k1 k2 : Str) (e : ε)
    (h1 : f k1 = Except.error e) (h2 : f k2 = Except.ok []) :
    analyze_by_keyword f (pre ++ k1 :: post) = analyze_by_keyword f (pre ++ post) ∧
    analyze_by_keyword f (pre ++ k2 :: post) = analyze_by_keyword f (pre ++ post) ∧
    (∀ k opps, (k, opps) ∈ analyze_by_keyword f (pre ++ k1 :: post) →
      f k = Except.ok opps ∧ opps ≠ []) := by
  refine ⟨?_, ?_, ?_⟩
  · unfold analyze_by_keyword
    rw [List.foldl_append, List.foldl_append, List.foldl_cons]
    have hstep : keywordStep f (List.foldl (keywordStep f) [] pre) k1 =
        List.foldl (keywordStep f) [] pre := by
      unfold keywordStep
      rw [h1]
    rw [hstep]
  · unfold analyze_by_keyword
    rw [List.foldl_append, List.foldl_append, List.foldl_cons]
    have hstep : keywordStep f (List.foldl (keywordStep f) [] pre) k2 =
        List.foldl (keywordStep f) [] pre := by
      unfold keywordStep
      rw [h2]
      rfl
    rw [hstep]
  · intro k opps h
    rcases mem_foldl_keywordStep f (pre ++ k1 :: post) [] k opps h with habs | hP
    · exact absurd habs (by simp)
    · exact hP

/-- Witness for the C6 theorem on a concrete batch: keyword b raises,
keyword d returns an empty result, keywords a and c succeed. -/
theorem c6_witness :
    analyze_by_keyword keywordBody (["a".toList] ++ "b".toList :: ["c".toList]) =
      analyze_by_keyword keywordBody (["a".toList] ++ ["c".toList]) ∧
    analyze_by_keyword keywordBody (["a".toList] ++ "d".toList :: ["c".toList]) =
      analyze_by_keyword keywordBody (["a".toList] ++ ["c".toList]) ∧
    (∀ k opps,
      (k, opps) ∈ analyze_by_keyword keywordBody (["a".toList] ++ "b".toList :: ["c".toList]) →
      keywordBody k = Except.ok opps ∧ opps ≠ []) := by
  have h := c6_per_keyword_isolation keywordBody ["a".toList] ["c".toList]
    "b".toList "d".toList () (by rfl) (by rfl)
  exact h

/-- Invariant of the best-match loop: either no candidate beats the
running score and the accumulator survives, or the result is the first
candidate of a maximal score, with all earlier candidates strictly below
it and all later candidates at most equal to it. -/
theorem best_match_aux_spec (listing : ScrapedListing) :
    ∀ (cards : List Card) (acc : Option Card × ℚ),
      (best_match_aux listing cards acc = acc ∧
        ∀ c ∈ cards, calculate_match_score listing c ≤ acc.2) ∨
      (∃ pre c post, cards = pre ++ c :: post ∧
        best_match_aux listing cards acc = (some c, calculate_match_score listing c) ∧
        acc.2 < calculate_match_score listing c ∧
        (∀ x ∈ pre, calculate_match_score listing x < calculate_match_score listing c) ∧
        (∀ x ∈ post, calculate_match_score listing x ≤ calculate_match_score listing c)) := by
  intro cards
  induction cards with
  | nil =>
      intro acc
      left
      exact ⟨rfl, by simp⟩
  | cons a t ih =>
      intro acc
      have hstep : best_match_aux listing (a :: t) acc =
          best_match_aux listing t
            (if acc.2 < calculate_match_score listing a
              then (some a, calculate_match_score listing a) else acc) := rfl
      by_cases ha : acc.2 < calculate_match_score listing a
      · rw [if_pos ha] at hstep
        rcases ih (some a, calculate_match_score listing a) with ⟨heq, hall⟩ |
          ⟨pre, c, post, hsplit, heq, hlt, hpre, hpost⟩
        · right
          refine ⟨[], a, t, rfl, ?_, ha, by simp, ?_⟩
          · rw [hstep, heq]
          · simpa using hall
        · right
          refine ⟨a :: pre, c, post, by rw [hsplit]; rfl, ?_, lt_trans ha hlt, ?_, hpost⟩
          · rw [hstep, heq]
          · intro x hx
            rcases List.mem_cons.mp hx with rfl | hx'
            · exact hlt
            · exact hpre x hx'
      · rw [if_neg ha] at hstep
        rcases ih acc with ⟨heq, hall⟩ | ⟨pre, c, post, hsplit, heq, hlt, hpre, hpost⟩
        · left
          refine ⟨by rw [hstep, heq], ?_⟩
          intro x hx
          rcases List.mem_cons.mp hx with rfl | hx'
          · exact le_of_not_lt ha
          · exact hall x hx'
        · right
          refine ⟨a :: pre, c, post, by rw [hsplit]; rfl, by rw [hstep, heq], hlt, ?_, hpost⟩
          intro x hx
          rcases List.mem_cons.mp hx with rfl | hx'
          · exact lt_of_le_of_lt (le_of_not_lt ha) hlt
          · exact hpre x hx'

/-- A selected best match is the earliest candidate attaining its score:
all earlier candidates score strictly lower, and a later candidate with
an equal score never displaces it; the C9 claim theorem. -/
theorem c9_earliest_match (listing : ScrapedListing) (cards : List Card)
    (c : Card) (s : ℚ) (h : best_match_fold listing cards = (some c, s)) :
    ∃ pre post, cards = pre ++ c :: post ∧ calculate_match_score listing c = s ∧ 0 < s ∧
      (∀ x ∈ pre, calculate_match_score listing x < s) ∧
      (∀ x ∈ post, calculate_match_score listing x ≤ s) := by
  unfold best_match_fold at h
  rcases best_match_aux_spec listing cards (none, 0) with ⟨heq, _⟩ |
    ⟨pre, c', post, hsplit, heq, hlt, hpre, hpost⟩
  · rw [heq] at h
    exact absurd h (by simp)
  · rw [heq] at h
    have hc : c' = c := by
      have := congrArg Prod.fst h
      simpa using this
    have hs : calculate_match_score listing c' = s := by
      have := congrArg Prod.snd h
      simpa using this
    subst hc
    rw [hs] at hlt hpre hpost
    exact ⟨pre, post, hsplit, hs, by simpa using hlt, hpre, hpost⟩

/-- Witness for the C9 theorem: two candidates with the identical score
one half; the first one is selected. -/
theorem c9_witness :
    ∃ pre post, [cardA, cardB] = pre ++ cardA :: post ∧
      calculate_match_score smithListing cardA = 1/2 ∧ (0 : ℚ) < 1/2 ∧
      (∀ x ∈ pre, calculate_match_score smithListing x < 1/2) ∧
      (∀ x ∈ post, calculate_match_score smithListing x ≤ 1/2) := by
  have hterms : (cardTerms.filter fun t => strContains (toLowerStr smithListing.title) t) = [] := by
    decide
  have hA : calculate_match_score smithListing cardA = 1/2 := by
    simp only [calculate_match_score]
    rw [if_pos (by decide), if_neg (by decide), if_neg (by decide), hterms]
    norm_num [min_def]
  have hB : calculate_match_score smithListing cardB = 1/2 := by
    simp only [calculate_match_score]
    rw [if_pos (by decide), if_neg (by decide), if_neg (by decide), hterms]
    norm_num [min_def]
  have hfold : best_match_fold smithListing [cardA, cardB] = (some cardA, 1/2) := by
    simp only [best_match_fold, best_match_aux, hA, hB]
    norm_num
  exact c9_earliest_match smithListing [cardA, cardB] cardA (1/2) hfold

/-- Mapping the timezone strip over the input maps pairwise over the
dated selection, keeping prices and wall-clock readings. -/
theorem datedRecords_map_stripTz (sold : List SoldListing) :
    datedRecords (sold.map stripTz) =
      (datedRecords sold).map fun r => (r.1, { wall := r.2.wall, tz := none }) := by
  induction sold with
  | nil => rfl
  | cons l t ih =>
      rcases hE : l.end_time with _ | ts <;> by_cases hp : 0 < l.price <;>
        simp [datedRecords, List.filterMap_cons, stripTz, hE, hp] at ih ⊢ <;>
        simp [ih]

/-- Records without a timestamp never enter the dated selection. -/
theorem datedRecords_filter_isSome (sold : List SoldListing) :
    datedRecords (sold.filter fun l => l.end_time.isSome) = datedRecords sold := by
  induction sold with
  | nil => rfl
  | cons l t ih =>
      rcases hE : l.end_time with _ | ts
      · simp only [datedRecords, List.filter_cons, List.filterMap_cons, hE] at ih ⊢
        simpa [hE] using ih
      · simp only [datedRecords, List.filter_cons, List.filterMap_cons, hE] at ih ⊢
        simp only [Option.isSome_some, if_true, List.filterMap_cons, hE]
        rcases (some ts).bind fun t => if 0 < l.price then some (l.price, t) else none with _ | r
        · exact ih
        · rw [ih]

/-- Timestamp handling of the weighted average, as the code performs it:
stripping timezone annotations leaves the estimate unchanged (aware
records are included on their wall-clock reading, not excluded), records
without a usable timestamp are excluded without affecting the rest, and
the estimation never fails, returning none exactly when no record has
both a date and a positive price; the C4 claim theorem (amended). -/
theorem c4_timestamp_handling (cfg : AnalyzerConfig) (now : ℤ) (sold : List SoldListing) :
    calculate_weighted_average cfg now (sold.map stripTz) =
      calculate_weighted_average cfg now sold ∧
    calculate_weighted_average cfg now (sold.filter fun l => l.end_time.isSome) =
      calculate_weighted_average cfg now sold ∧
    (calculate_weighted_average cfg now sold = none ↔ datedRecords sold = []) := by
  refine ⟨?_, ?_, calculate_weighted_average_eq_none_iff cfg now sold⟩
  · by_cases hd : datedRecords sold = []
    · rw [(calculate_weighted_average_eq_none_iff cfg now sold).mpr hd,
        (calculate_weighted_average_eq_none_iff cfg now (sold.map stripTz)).mpr
          (by rw [datedRecords_map_stripTz, hd]; rfl)]
    · have hd2 : datedRecords (sold.map stripTz) ≠ [] := by
        rw [datedRecords_map_stripTz]
        simpa using hd
      rw [calculate_weighted_average_eq cfg now sold hd,
        calculate_weighted_average_eq cfg now (sold.map stripTz) hd2,
        datedRecords_map_stripTz, List.map_map, List.map_map]
      rfl
  · by_cases hd : datedRecords sold = []
    · rw [(calculate_weighted_average_eq_none_iff cfg now sold).mpr hd,
        (calculate_weighted_average_eq_none_iff cfg now _).mpr
          (by rw [datedRecords_filter_isSome, hd])]
    · have hd2 : datedRecords (sold.filter fun l => l.end_time.isSome) ≠ [] := by
        rw [datedRecords_filter_isSome]
        exact hd
      rw [calculate_weighted_average_eq cfg now sold hd,
        calculate_weighted_average_eq cfg now _ hd2, datedRecords_filter_isSome]

/-- Counterexample to the original C4 claim: a record whose timestamp
carries a timezone is not excluded from the weighted-average input set;
it is the only dated record here and it alone determines the weighted
value 200. -/
theorem c4_counterexample :
    datedRecords
        [{ price := 100, end_time := none }, { price := 100, end_time := none },
         { price := 100, end_time := none }, { price := 100, end_time := none },
         { price := 200, end_time := some { wall := 0, tz := some 0 } }] =
      [(200, { wall := 0, tz := some 0 })] ∧
    calculate_weighted_average
        { discount_threshold := 20, min_sold_samples := 5, recency_weight := 7/10 } 0
        [{ price := 100, end_time := none }, { price := 100, end_time := none },
         { price := 100, end_time := none }, { price := 100, end_time := none },
         { price := 200, end_time := some { wall := 0, tz := some 0 } }] = some 200 := by
  have h1 : datedRecords
      [{ price := 100, end_time := none }, { price := 100, end_time := none },
       { price := 100, end_time := none }, { price := 100, end_time := none },
       ({ price := 200, end_time := some { wall := 0, tz := some 0 } } : SoldListing)] =
      [(200, { wall := 0, tz := some 0 })] := by
    simp only [datedRecords, List.filterMap_cons, Option.none_bind, Option.some_bind,
      List.filterMap_nil]
    rw [if_pos (by norm_num)]
  refine ⟨h1, ?_⟩
  rw [calculate_weighted_average_eq _ _ _ (by rw [h1]; simp), h1]
  simp only [List.map_cons, List.map_nil, List.sum_cons, List.sum_nil, weightOf, daysAgo]
  norm_num [Real.exp_zero]

/-- The returned point estimate is the recency-weighted average over
exactly the records with a positive price and a timestamp whenever one
such record exists, and the plain mean of the positive prices when no
record has a timestamp; the C3 claim theorem. -/
theorem c3_point_estimate (cfg : AnalyzerConfig) (now : ℤ) (sold : List SoldListing)
    (h0 : sold ≠ []) (h1 : cfg.min_sold_samples ≤ sold.length) :
    ((∃ l ∈ sold, 0 < l.price ∧ l.end_time.isSome) →
      (calculate_market_value cfg now sold).map (·.market_value) =
        some (((datedRecords sold).map fun r => ((r.1 : ℚ) : ℝ) * weightOf cfg now r.2).sum /
              ((datedRecords sold).map fun r => weightOf cfg now r.2).sum)) ∧
    ((∀ l ∈ sold, l.end_time = none) → (∃ l ∈ sold, 0 < l.price) →
      (calculate_market_value cfg now sold).map (·.market_value) =
        some ((meanQ ((sold.filter fun l => decide (0 < l.price)).map (·.price)) : ℚ) : ℝ)) := by
  have hc1 : ¬ (sold.isEmpty || decide (sold.length < cfg.min_sold_samples)) = true := by
    simp only [Bool.or_eq_true, decide_eq_true_eq, List.isEmpty_iff]
    push_neg
    exact ⟨h0, h1⟩
  constructor
  · rintro ⟨l, hl, hp, hsome⟩
    rcases Option.isSome_iff_exists.mp hsome with ⟨ts, hts⟩
    have hmem : (l.price, ts) ∈ datedRecords sold := by
      refine List.mem_filterMap.mpr ⟨l, hl, ?_⟩
      rw [hts, Option.some_bind, if_pos hp]
    have hd : datedRecords sold ≠ [] := List.ne_nil_of_mem hmem
    have hw := calculate_weighted_average_eq cfg now sold hd
    have hWpos := calculate_weighted_average_pos hw
    have hpne : ¬ ((sold.filter fun l => decide (0 < l.price)).map (·.price)).isEmpty = true := by
      have : l ∈ sold.filter fun l => decide (0 < l.price) :=
        List.mem_filter.mpr ⟨hl, decide_eq_true hp⟩
      simp only [List.isEmpty_iff, List.map_eq_nil_iff]
      exact List.ne_nil_of_mem this
    have hW0 : ((datedRecords sold).map fun r => ((r.1 : ℚ) : ℝ) * weightOf cfg now r.2).sum /
        ((datedRecords sold).map fun r => weightOf cfg now r.2).sum ≠ 0 := ne_of_gt hWpos
    simp only [calculate_market_value, if_neg hc1, if_neg hpne, hw, Option.map_some']
    exact congrArg some (if_neg hW0)
  · intro hnone hpos
    have hd : datedRecords sold = [] := by
      refine List.filterMap_eq_nil_iff.mpr fun a ha => ?_
      rw [hnone a ha]
      rfl
    have hw := (calculate_weighted_average_eq_none_iff cfg now sold).mpr hd
    rcases hpos with ⟨l, hl, hp⟩
    have hpne : ¬ ((sold.filter fun l => decide (0 < l.price)).map (·.price)).isEmpty = true := by
      have : l ∈ sold.filter fun l => decide (0 < l.price) :=
        List.mem_filter.mpr ⟨hl, decide_eq_true hp⟩
      simp only [List.isEmpty_iff, List.map_eq_nil_iff]
      exact List.ne_nil_of_mem this
    simp only [calculate_market_value, if_neg hc1, if_neg hpne, hw, Option.map_some']

/-- Witness for the C3 theorem: five records, four undated at price 100
and one dated at price 200, meeting the default minimum of five. -/
theorem c3_witness :
    ((∃ l ∈ [({ price := 100, end_time := none } : SoldListing),
        { price := 100, end_time := none }, { price := 100, end_time := none },
        { price := 100, end_time := none },
        { price := 200, end_time := some { wall := 0, tz := none } }],
        0 < l.price ∧ l.end_time.isSome) →
      (calculate_market_value { discount_threshold := 20, min_sold_samples := 5, recency_weight := 7/10 } 0
          [{ price := 100, end_time := none }, { price := 100, end_time := none },
           { price := 100, end_time := none }, { price := 100, end_time := none },
           { price := 200, end_time := some { wall := 0, tz := none } }]).map (·.market_value) =
        some (((datedRecords
            [({ price := 100, end_time := none } : SoldListing),
             { price := 100, end_time := none }, { price := 100, end_time := none },
             { price := 100, end_time := none },
             { price := 200, end_time := some { wall := 0, tz := none } }]).map
              fun r => ((r.1 : ℚ) : ℝ) *
                weightOf { discount_threshold := 20, min_sold_samples := 5, recency_weight := 7/10 } 0 r.2).sum /
          ((datedRecords
            [({ price := 100, end_time := none } : SoldListing),
             { price := 100, end_time := none }, { price := 100, end_time := none },
             { price := 100, end_time := none },
             { price := 200, end_time := some { wall := 0, tz := none } }]).map
              fun r => weightOf { discount_threshold := 20, min_sold_samples := 5, recency_weight := 7/10 } 0 r.2).sum)) ∧
    ((∀ l ∈ [({ price := 100, end_time := none } : SoldListing),
        { price := 100, end_time := none }, { price := 100, end_time := none },
        { price := 100, end_time := none },
        { price := 200, end_time := some { wall := 0, tz := none } }], l.end_time = none) →
      (∃ l ∈ [({ price := 100, end_time := none } : SoldListing),
        { price := 100, end_time := none }, { price := 100, end_time := none },
        { price := 100, end_time := none },
        { price := 200, end_time := some { wall := 0, tz := none } }], 0 < l.price) →
      (calculate_market_value { discount_threshold := 20, min_sold_samples := 5, recency_weight := 7/10 } 0
          [{ price := 100, end_time := none }, { price := 100, end_time := none },
           { price := 100, end_time := none }, { price := 100, end_time := none },
           { price := 200, end_time := some { wall := 0, tz := none } }]).map (·.market_value) =
        some ((meanQ (([({ price := 100, end_time := none } : SoldListing),
            { price := 100, end_time := none }, { price := 100, end_time := none },
            { price := 100, end_time := none },
            { price := 200, end_time := some { wall := 0, tz := none } }].filter
              fun l => decide (0 < l.price)).map (·.price)) : ℚ) : ℝ)) :=
  c3_point_estimate
    { discount_threshold := 20, min_sold_samples := 5, recency_weight := 7/10 } 0
    [{ price := 100, end_time := none }, { price := 100, end_time := none },
     { price := 100, end_time := none }, { price := 100, end_time := none },
     { price := 200, end_time := some { wall := 0, tz := none } }]
    (by simp) (by simp)

/-- Strictly fewer whole days of age give a strictly larger recency
weight when the recency weight parameter is positive. -/
theorem weightOf_lt (cfg : AnalyzerConfig) (now : ℤ) (t1 t2 : Timestamp)
    (hrw : 0 < cfg.recency_weight) (hd : daysAgo now t2 < daysAgo now t1) :
    weightOf cfg now t1 < weightOf cfg now t2 := by
  unfold weightOf
  apply Real.exp_lt_exp.mpr
  have hdR : ((daysAgo now t2 : ℤ) : ℝ) < ((daysAgo now t1 : ℤ) : ℝ) := by exact_mod_cast hd
  have hrwR : (0 : ℝ) < ((cfg.recency_weight : ℚ) : ℝ) := by exact_mod_cast hrw
  rw [div_lt_div_iff_of_pos_right (by norm_num : (0 : ℝ) < 30)]
  nlinarith

/-- A two-point weighted average with the larger weight on the 200-priced
record is strictly closer to 200 than the midpoint 150 is. -/
theorem two_point_pull_hi (w1 w2 : ℝ) (h1 : 0 < w1) (_h2 : 0 < w2) (hlt : w1 < w2) :
    |(100 * w1 + 200 * w2) / (w1 + w2) - 200| < |(150 : ℝ) - 200| := by
  have hden : 0 < w1 + w2 := by linarith
  rw [show |(150 : ℝ) - 200| = 50 by rw [abs_of_neg (by norm_num)]; norm_num]
  rw [abs_sub_lt_iff]
  constructor
  · have : (100 * w1 + 200 * w2) / (w1 + w2) < 250 := by
      rw [div_lt_iff₀ hden]
      nlinarith
    linarith
  · have : (150 : ℝ) < (100 * w1 + 200 * w2) / (w1 + w2) := by
      rw [lt_div_iff₀ hden]
      nlinarith
    linarith

/-- A two-point weighted average with the larger weight on the 100-priced
record is strictly closer to 100 than the midpoint 150 is. -/
theorem two_point_pull_lo (w1 w2 : ℝ) (_h1 : 0 < w1) (h2 : 0 < w2) (hlt : w2 < w1) :
    |(100 * w1 + 200 * w2) / (w1 + w2) - 100| < |(150 : ℝ) - 100| := by
  have hden : 0 < w1 + w2 := by linarith
  rw [show |(150 : ℝ) - 100| = 50 by rw [abs_of_pos (by norm_num)]; norm_num]
  rw [abs_sub_lt_iff]
  constructor
  · have : (100 * w1 + 200 * w2) / (w1 + w2) < 150 := by
      rw [div_lt_iff₀ hden]
      nlinarith
    linarith
  · have : (50 : ℝ) < (100 * w1 + 200 * w2) / (w1 + w2) := by
      rw [lt_div_iff₀ hden]
      nlinarith
    linarith

/-- Recency pulls the two-record weighted value strictly toward the price
of the record whose whole-day age is strictly smaller, for any positive
recency weight; the C7 claim theorem (amended to whole-day age, the
granularity the code computes). -/
theorem c7_recency_pull (cfg : AnalyzerConfig) (now : ℤ) (t1 t2 : Timestamp)
    (hrw : 0 < cfg.recency_weight) :
    (daysAgo now t2 < daysAgo now t1 →
      ∃ v, calculate_weighted_average cfg now
          [{ price := 100, end_time := some t1 }, { price := 200, end_time := some t2 }] =
          some v ∧ |v - 200| < |(150 : ℝ) - 200|) ∧
    (daysAgo now t1 < daysAgo now t2 →
      ∃ v, calculate_weighted_average cfg now
          [{ price := 100, end_time := some t1 }, { price := 200, end_time := some t2 }] =
          some v ∧ |v - 100| < |(150 : ℝ) - 100|) := by
  have hdr : datedRecords [{ price := 100, end_time := some t1 },
      ({ price := 200, end_time := some t2 } : SoldListing)] = [(100, t1), (200, t2)] := by
    norm_num [datedRecords, List.filterMap_cons]
  have hw := calculate_weighted_average_eq cfg now _ (by rw [hdr]; simp)
  rw [hdr] at hw
  set w1 := weightOf cfg now t1 with hw1def
  set w2 := weightOf cfg now t2 with hw2def
  have hv : calculate_weighted_average cfg now
      [{ price := 100, end_time := some t1 }, { price := 200, end_time := some t2 }] =
      some ((100 * w1 + 200 * w2) / (w1 + w2)) := by
    rw [hw]
    norm_num
  have hp1 : 0 < w1 := Real.exp_pos _
  have hp2 : 0 < w2 := Real.exp_pos _
  constructor
  · intro hd
    have hlt : w1 < w2 := weightOf_lt cfg now t1 t2 hrw hd
    exact ⟨_, hv, two_point_pull_hi w1 w2 hp1 hp2 hlt⟩
  · intro hd
    have hlt : w2 < w1 := weightOf_lt cfg now t2 t1 hrw hd
    exact ⟨_, hv, two_point_pull_lo w1 w2 hp1 hp2 hlt⟩

/-- Witness for the C7 theorem: the 200-priced record is two whole days
more recent, so the weighted value is strictly closer to 200. -/
theorem c7_witness :
    ∃ v, calculate_weighted_average
        { discount_threshold := 20, min_sold_samples := 5, recency_weight := 7/10 } 0
        [{ price := 100, end_time := some { wall := -172800, tz := none } },
         { price := 200, end_time := some { wall := 0, tz := none } }] =
        some v ∧ |v - 200| < |(150 : ℝ) - 200| :=
  (c7_recency_pull
      { discount_threshold := 20, min_sold_samples := 5, recency_weight := 7/10 } 0
      { wall := -172800, tz := none } { wall := 0, tz := none } (by norm_num)).1 (by decide)

/-- Counterexample to the original C7 claim: the 200-priced record is
strictly more recent by one hour, but both records fall in the same
whole-day bucket, so the weighted value is exactly the unweighted mean
150 and not strictly closer to 200. -/
theorem c7_counterexample :
    calculate_weighted_average
        { discount_threshold := 20, min_sold_samples := 5, recency_weight := 7/10 } 864000
        [{ price := 100, end_time := some { wall := 3600, tz := none } },
         { price := 200, end_time := some { wall := 7200, tz := none } }] = some 150 ∧
    (3600 : ℤ) < 7200 ∧ ¬ (|(150 : ℝ) - 200| < |(150 : ℝ) - 200|) := by
  refine ⟨?_, by norm_num, by simp⟩
  have hdr : datedRecords [{ price := 100, end_time := some { wall := 3600, tz := none } },
      ({ price := 200, end_time := some { wall := 7200, tz := none } } : SoldListing)] =
      [(100, { wall := 3600, tz := none }), (200, { wall := 7200, tz := none })] := by
    norm_num [datedRecords, List.filterMap_cons]
  rw [calculate_weighted_average_eq _ _ _ (by rw [hdr]; simp), hdr]
  have hd1 : daysAgo 864000 { wall := 3600, tz := none } = 9 := by decide
  have hd2 : daysAgo 864000 { wall := 7200, tz := none } = 9 := by decide
  simp only [List.map_cons, List.map_nil, List.sum_cons, List.sum_nil, weightOf, hd1, hd2,
    Option.some.injEq]
  rw [div_eq_iff (ne_of_gt (by positivity))]
  ring

/-- Lower bound transfer for weighted sums: a bound below every price
bounds the price-weight products from below, scaled by the weight sum. -/
theorem weighted_sum_lower (b : ℝ) :
    ∀ (L : List (ℚ × Timestamp)) (f : ℚ × Timestamp → ℝ),
      (∀ r ∈ L, 0 < f r) → (∀ r ∈ L, b ≤ ((r.1 : ℚ) : ℝ)) →
      b * (L.map f).sum ≤ (L.map fun r => ((r.1 : ℚ) : ℝ) * f r).sum := by
  intro L
  induction L with
  | nil => intro f _ _; simp
  | cons r t ih =>
      intro f hf hb
      simp only [List.map_cons, List.sum_cons, mul_add]
      have h1 : b * f r ≤ ((r.1 : ℚ) : ℝ) * f r :=
        mul_le_mul_of_nonneg_right (hb r (List.mem_cons_self r t))
          (le_of_lt (hf r (List.mem_cons_self r t)))
      have h2 := ih f (fun x hx => hf x (List.mem_cons_of_mem r hx))
        (fun x hx => hb x (List.mem_cons_of_mem r hx))
      linarith

/-- Upper bound transfer for weighted sums. -/
theorem weighted_sum_upper (b : ℝ) :
    ∀ (L : List (ℚ × Timestamp)) (f : ℚ × Timestamp → ℝ),
      (∀ r ∈ L, 0 < f r) → (∀ r ∈ L, ((r.1 : ℚ) : ℝ) ≤ b) →
      (L.map fun r => ((r.1 : ℚ) : ℝ) * f r).sum ≤ b * (L.map f).sum := by
  intro L
  induction L with
  | nil => intro f _ _; simp
  | cons r t ih =>
      intro f hf hb
      simp only [List.map_cons, List.sum_cons, mul_add]
      have h1 : ((r.1 : ℚ) : ℝ) * f r ≤ b * f r :=
        mul_le_mul_of_nonneg_right (hb r (List.mem_cons_self r t))
          (le_of_lt (hf r (List.mem_cons_self r t)))
      have h2 := ih f (fun x hx => hf x (List.mem_cons_of_mem r hx))
        (fun x hx => hb x (List.mem_cons_of_mem r hx))
      linarith

/-- Every recency weight entering a computable weighted average is
strictly positive, weights of records dated in the future of now exceed
one, and the returned weighted value lies between any lower and any upper
bound of the contributing prices, hence between their minimum and
maximum; the C10 claim theorem. -/
theorem c10_weight_bounds (cfg : AnalyzerConfig) (now : ℤ) (sold : List SoldListing)
    (h : datedRecords sold ≠ []) (hrw : 0 < cfg.recency_weight) :
    (∀ r ∈ datedRecords sold, 0 < weightOf cfg now r.2) ∧
    (∀ r ∈ datedRecords sold, now < r.2.wall → 1 < weightOf cfg now r.2) ∧
    (∃ v, calculate_weighted_average cfg now sold = some v ∧
      (∀ b : ℝ, (∀ r ∈ datedRecords sold, b ≤ ((r.1 : ℚ) : ℝ)) → b ≤ v) ∧
      (∀ b : ℝ, (∀ r ∈ datedRecords sold, ((r.1 : ℚ) : ℝ) ≤ b) → v ≤ b)) := by
  refine ⟨fun r _ => Real.exp_pos _, ?_, ?_⟩
  · intro r _ hfut
    unfold weightOf
    apply Real.one_lt_exp_iff.mpr
    have hneg : now - r.2.wall < 0 := by linarith
    have hdays : daysAgo now r.2 < 0 := by
      unfold daysAgo
      rw [Int.fdiv_eq_ediv _ (by norm_num)]
      exact Int.ediv_neg' hneg (by norm_num)
    have hdR : ((daysAgo now r.2 : ℤ) : ℝ) < 0 := by exact_mod_cast hdays
    have hrwR : (0 : ℝ) < ((cfg.recency_weight : ℚ) : ℝ) := by exact_mod_cast hrw
    have : 0 < -((cfg.recency_weight : ℚ) : ℝ) * ((daysAgo now r.2 : ℤ) : ℝ) := by nlinarith
    positivity
  · have hden : 0 < ((datedRecords sold).map fun r => weightOf cfg now r.2).sum :=
      weights_sum_pos cfg now h
    refine ⟨_, calculate_weighted_average_eq cfg now sold h, ?_, ?_⟩
    · intro b hb
      rw [le_div_iff₀ hden]
      have := weighted_sum_lower b (datedRecords sold) (fun r => weightOf cfg now r.2)
        (fun r _ => Real.exp_pos _) hb
      linarith
    · intro b hb
      rw [div_le_iff₀ hden]
      have := weighted_sum_upper b (datedRecords sold) (fun r => weightOf cfg now r.2)
        (fun r _ => Real.exp_pos _) hb
      linarith

/-- Witness for the C10 theorem: two dated records, one of them dated in
the future of now. -/
theorem c10_witness :
    (∀ r ∈ datedRecords
        [({ price := 100, end_time := some { wall := -86400, tz := none } } : SoldListing),
         { price := 200, end_time := some { wall := 86400, tz := none } }],
      0 < weightOf { discount_threshold := 20, min_sold_samples := 5, recency_weight := 7/10 } 0 r.2) ∧
    (∀ r ∈ datedRecords
        [({ price := 100, end_time := some { wall := -86400, tz := none } } : SoldListing),
         { price := 200, end_time := some { wall := 86400, tz := none } }],
      (0 : ℤ) < r.2.wall →
        1 < weightOf { discount_threshold := 20, min_sold_samples := 5, recency_weight := 7/10 } 0 r.2) ∧
    (∃ v, calculate_weighted_average
        { discount_threshold := 20, min_sold_samples := 5, recency_weight := 7/10 } 0
        [{ price := 100, end_time := some { wall := -86400, tz := none } },
         { price := 200, end_time := some { wall := 86400, tz := none } }] = some v ∧
      (∀ b : ℝ, (∀ r ∈ datedRecords
          [({ price := 100, end_time := some { wall := -86400, tz := none } } : SoldListing),
           { price := 200, end_time := some { wall := 86400, tz := none } }],
          b ≤ ((r.1 : ℚ) : ℝ)) → b ≤ v) ∧
      (∀ b : ℝ, (∀ r ∈ datedRecords
          [({ price := 100, end_time := some { wall := -86400, tz := none } } : SoldListing),
           { price := 200, end_time := some { wall := 86400, tz := none } }],
          ((r.1 : ℚ) : ℝ) ≤ b) → v ≤ b)) :=
  c10_weight_bounds
    { discount_threshold := 20, min_sold_samples := 5, recency_weight := 7/10 } 0
    [{ price := 100, end_time := some { wall := -86400, tz := none } },
     { price := 200, end_time := some { wall := 86400, tz := none } }]
    (by norm_num [datedRecords, List.filterMap_cons]; simp) (by norm_num)

/-- The merge sort used by find_opportunities yields a discount-descending
pairwise order. -/
theorem pairwise_oppDesc (l : List Opportunity) :
    List.Pairwise (fun a b => b.discount_pct ≤ a.discount_pct) (l.mergeSort oppDesc) := by
  have h := @List.sorted_mergeSort Opportunity oppDesc
    (fun a b c h1 h2 => by
      simp only [oppDesc, decide_eq_true_eq] at *
      exact le_trans h2 h1)
    (fun a b => by
      simp only [oppDesc]
      simpa using le_total b.discount_pct a.discount_pct) l
  exact h.imp fun hab => of_decide_eq_true hab

/-- The merge sort used by the catalog path yields a discount-descending
pairwise order. -/
theorem pairwise_scpDesc (l : List ScpOpportunity) :
    List.Pairwise (fun a b => b.discount_pct ≤ a.discount_pct) (l.mergeSort scpDesc) := by
  have h := @List.sorted_mergeSort ScpOpportunity scpDesc
    (fun a b c h1 h2 => by
      simp only [scpDesc, decide_eq_true_eq] at *
      exact le_trans h2 h1)
    (fun a b => by
      simp only [scpDesc]
      simpa using le_total b.discount_pct a.discount_pct) l
  exact h.imp fun hab => of_decide_eq_true hab

/-- The merge sort used by the scraping path yields a discount-descending
pairwise order. -/
theorem pairwise_scrapeDesc (l : List ScrapeOpportunity) :
    List.Pairwise (fun a b => b.discount_pct ≤ a.discount_pct) (l.mergeSort scrapeDesc) := by
  have h := @List.sorted_mergeSort ScrapeOpportunity scrapeDesc
    (fun a b c h1 h2 => by
      simp only [scrapeDesc, decide_eq_true_eq] at *
      exact le_trans h2 h1)
    (fun a b => by
      simp only [scrapeDesc]
      simpa using le_total b.discount_pct a.discount_pct) l
  exact h.imp fun hab => of_decide_eq_true hab

/-- Both batch producers emit their opportunities in discount-descending
order: every adjacent pair is ordered; the C8 claim theorem. -/
theorem c8_sorted_output (cfg : AnalyzerConfig) (now : ℤ) (active : List ActiveListing)
    (sold : List SoldListing) (search_cards : Str → List Card)
    (search_listings : Str → List ScrapedListing) (query : Str) :
    List.Chain' (fun a b => b.discount_pct ≤ a.discount_pct)
      (find_opportunities cfg now active sold) ∧
    List.Chain' (fun a b => b.discount_pct ≤ a.discount_pct)
      (analyze_with_scraping search_cards search_listings cfg query) := by
  constructor
  · rcases hmv : calculate_market_value cfg now sold with _ | stats
    · simp only [find_opportunities, hmv]
      exact List.chain'_nil
    · simp only [find_opportunities, hmv]
      split
      · exact List.chain'_nil
      · exact (pairwise_oppDesc _).chain'
  · simp only [analyze_with_scraping]
    split
    · exact List.chain'_nil
    · split
      · exact List.chain'_nil
      · exact (pairwise_scrapeDesc _).chain'

/-- Admission invariant of find_opportunities: every emitted opportunity
meets the discount threshold and has a positive active price and a
positive market value. -/
theorem find_opportunities_admission (cfg : AnalyzerConfig) (now : ℤ)
    (active : List ActiveListing) (sold : List SoldListing) :
    ∀ o ∈ find_opportunities cfg now active sold,
      ((cfg.discount_threshold : ℚ) : ℝ) ≤ o.discount_pct ∧
        0 < o.active_price ∧ 0 < o.market_value := by
  intro o ho
  rcases hmv : calculate_market_value cfg now sold with _ | stats
  · simp only [find_opportunities, hmv] at ho
    exact absurd ho (by simp)
  · simp only [find_opportunities, hmv] at ho
    split at ho
    · exact absurd ho (by simp)
    · have ho2 := ((List.mergeSort_perm _ oppDesc).mem_iff).mp ho
      rcases List.mem_filterMap.mp ho2 with ⟨l, _, hbody⟩
      split_ifs at hbody with hp hth
      have heq := Option.some.inj hbody
      rw [← heq]
      exact ⟨hth, not_le.mp hp, calculate_market_value_pos hmv⟩

/-- Admission invariant of the catalog path: every emitted opportunity
meets the discount threshold and has a positive price and market value. -/
theorem analyze_sportscardpro_admission (keyword : Str) (sc : ScpSearchConfig)
    (search_cards : Str → List Card) (gmv : Str → Option ScpStats) (cfg : AnalyzerConfig) :
    ∀ o ∈ analyze_sportscardpro keyword sc search_cards gmv cfg,
      cfg.discount_threshold ≤ o.discount_pct ∧
        0 < o.active_price ∧ 0 < o.market_value := by
  intro o ho
  simp only [analyze_sportscardpro] at ho
  split at ho
  · exact absurd ho (by simp)
  · split at ho
    · exact absurd ho (by simp)
    · split at ho
      · exact absurd ho (by simp)
      · have ho2 := ((List.mergeSort_perm _ scpDesc).mem_iff).mp ho
        rcases List.mem_filterMap.mp ho2 with ⟨card, _, hbody⟩
        split_ifs at hbody with hskip hth hcid
        all_goals
          have heq := Option.some.inj hbody
        all_goals
          rw [← heq]
        all_goals
          push_neg at hskip
        all_goals
          exact ⟨hth, hskip.2, hskip.1⟩

/-- Admission invariant of the scraping path: every emitted opportunity
meets the discount threshold; its listing price and market value are
nonzero, but only nonzero, since the guards test equality with zero. -/
theorem analyze_with_scraping_admission (search_cards : Str → List Card)
    (search_listings : Str → List ScrapedListing) (cfg : AnalyzerConfig) (query : Str) :
    ∀ o ∈ analyze_with_scraping search_cards search_listings cfg query,
      cfg.discount_threshold ≤ o.discount_pct ∧
        o.listing_price ≠ 0 ∧ o.market_value ≠ 0 := by
  intro o ho
  simp only [analyze_with_scraping] at ho
  split at ho
  · exact absurd ho (by simp)
  · split at ho
    · exact absurd ho (by simp)
    · have ho2 := ((List.mergeSort_perm _ scrapeDesc).mem_iff).mp ho
      rcases List.mem_filterMap.mp ho2 with ⟨listing, _, hbody⟩
      by_cases hns : is_non_sports_card (toLowerStr listing.title)
      · rw [if_pos hns] at hbody
        exact absurd hbody (by simp)
      · rw [if_neg hns] at hbody
        rcases hbm : (best_match_fold listing (search_cards query)).1 with _ | best
        · rw [hbm, Option.none_bind] at hbody
          exact absurd hbody (by simp)
        · rw [hbm, Option.some_bind] at hbody
          split_ifs at hbody with h03 hmv0 hpr0 hth
          have heq := Option.some.inj hbody
          rw [← heq]
          exact ⟨hth, hpr0, hmv0⟩

/-- Every opportunity of every detection path meets the discount
threshold as its admission predicate; the comparison price and market
value are strictly positive on the find and catalog paths and nonzero on
the scraping path; the C1 claim theorem (amended for the scraping path,
whose guards exclude only exact zeroes). -/
theorem c1_admission (cfg : AnalyzerConfig) (now : ℤ) (active : List ActiveListing)
    (sold : List SoldListing) (keyword : Str) (sc : ScpSearchConfig)
    (search_cards : Str → List Card) (gmv : Str → Option ScpStats)
    (search_cards2 : Str → List Card) (search_listings2 : Str → List ScrapedListing)
    (query : Str) :
    List.Forall (fun o => ((cfg.discount_threshold : ℚ) : ℝ) ≤ o.discount_pct ∧
        0 < o.active_price ∧ 0 < o.market_value) (find_opportunities cfg now active sold) ∧
    List.Forall (fun o => cfg.discount_threshold ≤ o.discount_pct ∧
        0 < o.active_price ∧ 0 < o.market_value)
      (analyze_sportscardpro keyword sc search_cards gmv cfg) ∧
    List.Forall (fun o => cfg.discount_threshold ≤ o.discount_pct ∧
        o.listing_price ≠ 0 ∧ o.market_value ≠ 0)
      (analyze_with_scraping search_cards2 search_listings2 cfg query) :=
  ⟨List.forall_iff_forall_mem.mpr (find_opportunities_admission cfg now active sold),
   List.forall_iff_forall_mem.mpr
     (analyze_sportscardpro_admission keyword sc search_cards gmv cfg),
   List.forall_iff_forall_mem.mpr
     (analyze_with_scraping_admission search_cards2 search_listings2 cfg query)⟩

/-- Counterexample to the original C1 claim: a catalog card with market
value minus ten is matched and admitted by the scraping path with
discount 150 percent, because the guards only exclude values equal to
zero; the produced opportunity has a negative market value. -/
theorem c1_counterexample :
    ((analyze_with_scraping (fun _ => [negCard]) (fun _ => [smithListing])
        { discount_threshold := 20, min_sold_samples := 5, recency_weight := 7/10 }
        "q".toList).map fun o => o.market_value) = [-10] ∧ (-10 : ℚ) < 0 := by
  refine ⟨?_, by norm_num⟩
  have hterms : (cardTerms.filter fun t => strContains (toLowerStr smithListing.title) t) = [] := by
    decide
  have hsc : calculate_match_score smithListing negCard = 1/2 := by
    simp only [calculate_match_score]
    rw [if_pos (by decide), if_neg (by decide), if_neg (by decide), hterms]
    norm_num [min_def]
  have hbm : best_match_fold smithListing [negCard] = (some negCard, 1/2) := by
    simp only [best_match_fold, best_match_aux, hsc]
    norm_num
  have hns : is_non_sports_card (toLowerStr smithListing.title) = false := by decide
  simp only [analyze_with_scraping]
  rw [if_neg (by decide), if_neg (by decide)]
  simp only [List.filterMap_cons, List.filterMap_nil, hns, hbm, Option.some_bind]
  norm_num [negCard, smithListing, List.mergeSort_singleton]
